import Mathlib

/-!
Verification of the hue-ready-lamp status-light controller
(`src/hue_control.py`): the session registry, the priority resolver
`resolve_winning_state`, the stale-session garbage collector
`cleanup_stale_sessions`, and the CLI controller `main`.

The sessions directory is modelled as `Option (List SessionFile)`
(`none` when the directory does not exist).  Each file carries its name,
its suffix (in the file system this is derived from the name; here it is
carried explicitly, mirroring `Path.suffix`), and its content: either
unreadable/corrupt, or a parsed JSON object whose `state` and `timestamp`
fields may each be missing (`Option`).  The network and the wall clock
are passed in as parameters (`netOk`, `t0`, `t1`); the controller returns
its exit code, the trace of externally visible events (light commands and
sleeps), and the final registry.
-/

namespace HueControl

/-- The keys of the `STATES` table, in declaration order. -/
def STATES_names : List String :=
  ["thinking", "attention", "permission", "error", "success", "session", "off"]

/-- The `STATE_PRIORITY` dict: `.get` on a missing key yields `none`. -/
def STATE_PRIORITY : String → Option Nat
  | "off" => some 0
  | "session" => some 10
  | "success" => some 20
  | "thinking" => some 30
  | "error" => some 40
  | "attention" => some 50
  | "permission" => some 60
  | _ => none

/-- `STATE_PRIORITY.get(state, 0)`: missing states default to priority 0. -/
def priorityOf (s : String) : Nat := (STATE_PRIORITY s).getD 0

/-- Seconds the success state is held before falling back. -/
def SUCCESS_DURATION : Nat := 5

/-- Sessions older than this many seconds are stale. -/
def STALE_THRESHOLD : Int := 3600

/-- Content of one file in the sessions directory: either corrupted /
unreadable (JSON decode error or OS read error), or a parsed JSON object
whose `state` and `timestamp` fields may each be absent. -/
inductive FileContent where
  | corrupt : FileContent
  | record (state : Option String) (timestamp : Option Int) : FileContent
deriving DecidableEq

/-- One file of the sessions directory. `suffix` mirrors `Path.suffix`. -/
structure SessionFile where
  name : String
  suffix : String
  content : FileContent
deriving DecidableEq

/-- The sessions directory: `none` when it does not exist, otherwise the
list of its files in iteration order. -/
abbrev Registry := Option (List SessionFile)

/-- The file `register_session_state` writes for session `sid`. -/
def sessionFileFor (sid s : String) (t : Int) : SessionFile :=
  ⟨sid ++ ".json", ".json", .record (some s) (some t)⟩

/-- `register_session_state(session_id, state_name)`: create the directory
if needed and write `{session_id}.json` with the state and the current
time, overwriting any existing file of that name. -/
def register_session_state (reg : Registry) (sid s : String) (t : Int) : Registry :=
  let f := sessionFileFor sid s t
  match reg with
  | none => some [f]
  | some fs =>
    if fs.any (fun g => g.name == sid ++ ".json") then
      some (fs.map (fun g => if g.name == sid ++ ".json" then f else g))
    else
      some (fs ++ [f])

/-- `unregister_session(session_id)`: delete `{session_id}.json`;
a missing file (or directory) is not an error. -/
def unregister_session (reg : Registry) (sid : String) : Registry :=
  match reg with
  | none => none
  | some fs => some (fs.filter (fun g => !(g.name == sid ++ ".json")))

/-- The condition under which `cleanup_stale_sessions` unlinks a `.json`
file: its content is corrupt, or `now - data.get("timestamp", 0)` exceeds
`STALE_THRESHOLD`. -/
def staleOrCorrupt (now : Int) (f : SessionFile) : Bool :=
  match f.content with
  | .corrupt => true
  | .record _ ts => now - ts.getD 0 > STALE_THRESHOLD

/-- `cleanup_stale_sessions()`: no-op when the directory is absent;
otherwise examine every `.json` file and unlink it when stale or
corrupted.  Files without the `.json` suffix are never touched. -/
def cleanup_stale_sessions (reg : Registry) (now : Int) : Registry :=
  match reg with
  | none => none
  | some fs => some (fs.filter (fun f => !(f.suffix == ".json" && staleOrCorrupt now f)))

/-- The loop of `resolve_winning_state`: fold over the directory entries,
skipping non-`.json` files and unreadable files, reading
`data.get("state", "off")`, and updating the best candidate exactly when
its priority is strictly greater. -/
def resolveGo (fs : List SessionFile) (best : String) (bestP : Nat) : String :=
  match fs with
  | [] => best
  | f :: rest =>
    if f.suffix == ".json" then
      match f.content with
      | .corrupt => resolveGo rest best bestP
      | .record st _ =>
        let s := st.getD "off"
        let p := priorityOf s
        if bestP < p then resolveGo rest s p else resolveGo rest best bestP
    else
      resolveGo rest best bestP

/-- `resolve_winning_state()`: `"off"` when the directory is absent,
otherwise the fold starting from `best = "off"`. -/
def resolve_winning_state (reg : Registry) : String :=
  match reg with
  | none => "off"
  | some fs => resolveGo fs "off" (priorityOf "off")

/-- The states of the parsed `.json` records of a directory listing, as
the resolver reads them (a missing `state` field reads as `"off"`). -/
def recordStates (fs : List SessionFile) : List String :=
  fs.filterMap (fun f =>
    if f.suffix == ".json" then
      match f.content with
      | .corrupt => none
      | .record st _ => some (st.getD "off")
    else none)

/-- Externally visible effects of one invocation: a light command
(`set_light_state` with the given state's payload) or a blocking sleep. -/
inductive Event where
  | command (state : String)
  | sleep (secs : Nat)
deriving DecidableEq

/-- Result of one invocation of `main`. -/
structure Outcome where
  exitCode : Nat
  events : List Event
  registry : Registry
deriving DecidableEq

/-- `set_light_state(config, state_name)`: exits 1 (modelled as `none`)
when the state is unknown or the HTTP PUT to the bridge fails; otherwise
the command is issued. -/
def set_light_state (netOk : Bool) (s : String) : Option Event :=
  if s ∈ STATES_names then
    if netOk then some (.command s) else none
  else none

/-- `main()`: `argv` is `sys.argv[1:]`; `configPresent` models whether
`load_config` finds the config file; `netOk` whether HTTP PUTs to the
bridge succeed; `t0` the invocation time and `t1` the time after the
`SUCCESS_DURATION` sleep. -/
def main (argv : List String) (configPresent netOk : Bool)
    (reg : Registry) (t0 t1 : Int) : Outcome :=
  match argv with
  | [] => ⟨1, [], reg⟩
  | stateName :: rest =>
    if stateName ∈ STATES_names then
      if configPresent then
        match rest.head? with
        | none =>
          -- legacy single-session mode: the registry is never touched
          match set_light_state netOk stateName with
          | none => ⟨1, [], reg⟩
          | some e =>
            if stateName == "success" then
              match set_light_state netOk "off" with
              | none => ⟨1, [e, .sleep SUCCESS_DURATION], reg⟩
              | some e2 => ⟨0, [e, .sleep SUCCESS_DURATION, e2], reg⟩
            else ⟨0, [e], reg⟩
        | some sid =>
          -- session-aware mode
          let reg0 := cleanup_stale_sessions reg t0
          if stateName == "off" then
            let reg1 := unregister_session reg0 sid
            let w := resolve_winning_state reg1
            match set_light_state netOk w with
            | none => ⟨1, [], reg1⟩
            | some e => ⟨0, [e], reg1⟩
          else if stateName == "success" then
            let reg1 := register_session_state reg0 sid "success" t0
            let w1 := resolve_winning_state reg1
            match set_light_state netOk w1 with
            | none => ⟨1, [], reg1⟩
            | some e1 =>
              let reg2 := register_session_state reg1 sid "session" t1
              let w2 := resolve_winning_state reg2
              match set_light_state netOk w2 with
              | none => ⟨1, [e1, .sleep SUCCESS_DURATION], reg2⟩
              | some e2 => ⟨0, [e1, .sleep SUCCESS_DURATION, e2], reg2⟩
          else
            let reg1 := register_session_state reg0 sid stateName t0
            let w := resolve_winning_state reg1
            match set_light_state netOk w with
            | none => ⟨1, [], reg1⟩
            | some e => ⟨0, [e], reg1⟩
      else ⟨1, [], reg⟩
    else ⟨1, [], reg⟩

/-- The maximum priority among the parsed records of a directory listing
(`0` for a listing with no parsed records). -/
def maxRecordPriority (fs : List SessionFile) : Nat :=
  (recordStates fs).foldr (fun s m => max (priorityOf s) m) 0

lemma priorityOf_off : priorityOf "off" = 0 := rfl

lemma recordStates_cons_record (f : SessionFile) (rest : List SessionFile)
    (hj : f.suffix = ".json") (st : Option String) (ts : Option Int)
    (hc : f.content = .record st ts) :
    recordStates (f :: rest) = st.getD "off" :: recordStates rest := by
  simp [recordStates, hj, hc]

lemma recordStates_cons_skip (f : SessionFile) (rest : List SessionFile)
    (h : f.suffix ≠ ".json" ∨ f.content = .corrupt) :
    recordStates (f :: rest) = recordStates rest := by
  rcases h with h | h
  · simp [recordStates, h]
  · by_cases hj : f.suffix = ".json" <;> simp [recordStates, hj, h]

/-- Invariant of the resolver loop: the result is the starting candidate
or one of the record states; its priority is the maximum of the starting
priority and all record priorities; and the candidate is only ever
replaced by a strictly higher-priority state. -/
lemma resolveGo_spec (fs : List SessionFile) (best : String) (bestP : Nat)
    (h : priorityOf best = bestP) :
    resolveGo fs best bestP ∈ best :: recordStates fs ∧
    priorityOf (resolveGo fs best bestP) = max bestP (maxRecordPriority fs) ∧
    (resolveGo fs best bestP = best ∨ bestP < priorityOf (resolveGo fs best bestP)) := by
  induction fs generalizing best bestP with
  | nil =>
    simp [resolveGo, recordStates, maxRecordPriority, h]
  | cons f rest ih =>
    by_cases hj : f.suffix = ".json"
    · cases hc : f.content with
      | corrupt =>
        have hR := recordStates_cons_skip f rest (Or.inr hc)
        have hM : maxRecordPriority (f :: rest) = maxRecordPriority rest := by
          simp [maxRecordPriority, hR]
        have hgo : resolveGo (f :: rest) best bestP = resolveGo rest best bestP := by
          simp [resolveGo, hj, hc]
        obtain ⟨h1, h2, h3⟩ := ih best bestP h
        refine ⟨?_, ?_, ?_⟩
        · rw [hgo, hR]; exact h1
        · rw [hgo, hM]; exact h2
        · rw [hgo]; exact h3
      | record st ts =>
        have hR := recordStates_cons_record f rest hj st ts hc
        have hM : maxRecordPriority (f :: rest)
            = max (priorityOf (st.getD "off")) (maxRecordPriority rest) := by
          simp [maxRecordPriority, hR]
        by_cases hlt : bestP < priorityOf (st.getD "off")
        · have hgo : resolveGo (f :: rest) best bestP
              = resolveGo rest (st.getD "off") (priorityOf (st.getD "off")) := by
            simp [resolveGo, hj, hc, hlt]
          obtain ⟨h1, h2, h3⟩ := ih (st.getD "off") (priorityOf (st.getD "off")) rfl
          refine ⟨?_, ?_, ?_⟩
          · rw [hgo, hR]
            simp only [List.mem_cons] at h1 ⊢
            tauto
          · rw [hgo, hM, h2]
            omega
          · right
            rw [hgo]
            rcases h3 with he | hlt2
            · rw [he]; omega
            · omega
        · have hgo : resolveGo (f :: rest) best bestP = resolveGo rest best bestP := by
            simp [resolveGo, hj, hc, hlt]
          obtain ⟨h1, h2, h3⟩ := ih best bestP h
          refine ⟨?_, ?_, ?_⟩
          · rw [hgo, hR]
            simp only [List.mem_cons] at h1 ⊢
            tauto
          · rw [hgo, hM, h2]
            omega
          · rw [hgo]; exact h3
    · have hR := recordStates_cons_skip f rest (Or.inl hj)
      have hM : maxRecordPriority (f :: rest) = maxRecordPriority rest := by
        simp [maxRecordPriority, hR]
      have hgo : resolveGo (f :: rest) best bestP = resolveGo rest best bestP := by
        simp [resolveGo, hj]
      obtain ⟨h1, h2, h3⟩ := ih best bestP h
      refine ⟨?_, ?_, ?_⟩
      · rw [hgo, hR]; exact h1
      · rw [hgo, hM]; exact h2
      · rw [hgo]; exact h3

lemma resolve_some_eq (fs : List SessionFile) :
    resolve_winning_state (some fs) = resolveGo fs "off" 0 := rfl

/-- C1: for every collection of session records,
`resolve_winning_state` returns a state whose priority is the maximum
priority present among the parsed records (unknown state names taking
priority 0; the maximum of an empty record set being 0, the priority of
`"off"`), and the returned name is deterministically either `"off"` or
one of the record states — never an error.  For the absent sessions
directory and for the empty registry it returns `"off"`. -/
theorem resolve_returns_max_priority_state :
    resolve_winning_state none = "off" ∧
    resolve_winning_state (some []) = "off" ∧
    ∀ fs : List SessionFile,
      priorityOf (resolve_winning_state (some fs)) = maxRecordPriority fs ∧
      resolve_winning_state (some fs) ∈ "off" :: recordStates fs := by
  refine ⟨rfl, rfl, fun fs => ?_⟩
  obtain ⟨h1, h2, _⟩ := resolveGo_spec fs "off" 0 rfl
  rw [resolve_some_eq]
  refine ⟨?_, h1⟩
  rw [h2]
  omega

/-- C6: a state name absent from `STATE_PRIORITY` is treated as
priority 0 rather than rejected, and the resolver never returns such a
state: it loses every priority comparison (the winner is `"off"` or a
positive-priority state). -/
theorem unknown_state_defaults_to_priority_zero (s : String)
    (h : STATE_PRIORITY s = none) :
    priorityOf s = 0 ∧ ∀ reg : Registry, resolve_winning_state reg ≠ s := by
  have hp : priorityOf s = 0 := by simp [priorityOf, h]
  have hoff : s ≠ "off" := by
    intro he
    rw [he] at h
    simp [STATE_PRIORITY] at h
  refine ⟨hp, fun reg => ?_⟩
  match reg with
  | none =>
    simpa [resolve_winning_state] using fun he => hoff he.symm
  | some fs =>
    obtain ⟨_, _, h3⟩ := resolveGo_spec fs "off" 0 rfl
    rw [resolve_some_eq]
    rcases h3 with he | hlt
    · rw [he]; exact fun he2 => hoff he2.symm
    · intro he
      rw [he, hp] at hlt
      omega

/-- Witness for C6 at the concrete unknown name `"bogus"`: it gets
priority 0 and is never the resolved winner, even when it is the only
registered state. -/
theorem unknown_state_defaults_to_priority_zero_witness :
    priorityOf "bogus" = 0 ∧
    resolve_winning_state
      (some [⟨"a.json", ".json", .record (some "bogus") (some 7)⟩]) ≠ "bogus" := by
  have h := unknown_state_defaults_to_priority_zero "bogus" rfl
  exact ⟨h.1, h.2 _⟩

lemma cleanup_some_eq (fs : List SessionFile) (now : Int) :
    cleanup_stale_sessions (some fs) now
      = some (fs.filter (fun f => !(f.suffix == ".json" && staleOrCorrupt now f))) := rfl

/-- C4: after `cleanup_stale_sessions` runs at time `now`, every `.json`
record strictly older than `STALE_THRESHOLD` and every corrupted `.json`
record has been deleted from the directory; every surviving `.json`
record parses and is fresh.  Subsequent enumeration and resolution read
only the surviving listing, so the deleted records cannot influence
them. -/
theorem gc_removes_stale_and_corrupt (fs fs' : List SessionFile) (now : Int)
    (h : cleanup_stale_sessions (some fs) now = some fs') :
    (∀ f ∈ fs, f.suffix = ".json" → f.content = .corrupt → f ∉ fs') ∧
    (∀ f ∈ fs, ∀ st ts, f.suffix = ".json" → f.content = .record st ts →
      now - ts.getD 0 > STALE_THRESHOLD → f ∉ fs') ∧
    (∀ f ∈ fs', f.suffix = ".json" →
      f.content ≠ .corrupt ∧
      ∀ st ts, f.content = .record st ts → now - ts.getD 0 ≤ STALE_THRESHOLD) := by
  rw [cleanup_some_eq] at h
  have hfs' : fs' = fs.filter (fun f => !(f.suffix == ".json" && staleOrCorrupt now f)) :=
    (Option.some_injective _ h).symm
  subst hfs'
  refine ⟨?_, ?_, ?_⟩
  · intro f _ hj hc hmem
    have := (List.mem_filter.mp hmem).2
    simp [hj, hc, staleOrCorrupt] at this
  · intro f _ st ts hj hc hstale hmem
    have := (List.mem_filter.mp hmem).2
    simp [hj, hc, staleOrCorrupt] at this
    omega
  · intro f hmem hj
    have hkeep := (List.mem_filter.mp hmem).2
    cases hc : f.content with
    | corrupt => simp [hj, hc, staleOrCorrupt] at hkeep
    | record st ts =>
      refine ⟨by simp [hc], ?_⟩
      intro st' ts' hc'
      injection hc' with h1 h2
      subst h2
      simp [hj, hc, staleOrCorrupt] at hkeep
      omega

/-- Witness for C4: at `now = 4000` a record written at time 100
(age 3900 > 3600) and a corrupted record are both deleted; the record
written at time 3900 survives. -/
theorem gc_removes_stale_and_corrupt_witness :
    (⟨"a.json", ".json", .record (some "thinking") (some 100)⟩ : SessionFile) ∉
      ([⟨"c.json", ".json", .record (some "error") (some 3900)⟩] : List SessionFile) ∧
    (⟨"b.json", ".json", .corrupt⟩ : SessionFile) ∉
      ([⟨"c.json", ".json", .record (some "error") (some 3900)⟩] : List SessionFile) := by
  have h := gc_removes_stale_and_corrupt
    [⟨"a.json", ".json", .record (some "thinking") (some 100)⟩,
     ⟨"b.json", ".json", .corrupt⟩,
     ⟨"c.json", ".json", .record (some "error") (some 3900)⟩]
    [⟨"c.json", ".json", .record (some "error") (some 3900)⟩] 4000 (by decide)
  exact ⟨h.2.1 _ (by simp) (some "thinking") (some 100) rfl rfl (by decide),
         h.1 _ (by simp) rfl rfl⟩

/-- C9: a `.json` record that parses but has no `timestamp` field is
read with timestamp 0 (`data.get("timestamp", 0)`), so as soon as the
wall clock exceeds `STALE_THRESHOLD` (3600 seconds past the epoch) the
next garbage-collection pass always deletes it, no matter how recently
it was written. -/
theorem gc_deletes_records_without_timestamp (fs fs' : List SessionFile) (now : Int)
    (hnow : now > STALE_THRESHOLD)
    (h : cleanup_stale_sessions (some fs) now = some fs') :
    (∀ f ∈ fs, ∀ st, f.suffix = ".json" → f.content = .record st none → f ∉ fs') ∧
    (∀ f ∈ fs', f.suffix = ".json" → ∀ st, f.content ≠ .record st none) := by
  obtain ⟨-, hdel, hsurv⟩ := gc_removes_stale_and_corrupt fs fs' now h
  refine ⟨fun f hf st hj hc => hdel f hf st none hj hc (by simpa using hnow), ?_⟩
  intro f hf hj st hc
  have := (hsurv f hf hj).2 st none hc
  simp at this
  omega

/-- Witness for C9: at `now = 3601` a record written "moments before"
but lacking its `timestamp` field is deleted by garbage collection. -/
theorem gc_deletes_records_without_timestamp_witness :
    (⟨"a.json", ".json", .record (some "session") none⟩ : SessionFile) ∉
      ([] : List SessionFile) := by
  have h := gc_deletes_records_without_timestamp
    [⟨"a.json", ".json", .record (some "session") none⟩] [] 3601
    (by decide) (by decide)
  exact h.1 _ (by simp) (some "session") rfl rfl

lemma resolveGo_skip_missing_state (f : SessionFile) (ts : Option Int)
    (hf : f.content = .record none ts) :
    ∀ (fs1 fs2 : List SessionFile) (b : String) (p : Nat),
      resolveGo (fs1 ++ f :: fs2) b p = resolveGo (fs1 ++ fs2) b p := by
  intro fs1
  induction fs1 with
  | nil =>
    intro fs2 b p
    by_cases hj : f.suffix = ".json"
    · simp [resolveGo, hj, hf, priorityOf_off]
    · simp [resolveGo, hj]
  | cons g rest ih =>
    intro fs2 b p
    by_cases hj : g.suffix = ".json"
    · cases hg : g.content with
      | corrupt => simp [resolveGo, hj, hg, ih]
      | record st2 ts2 =>
        by_cases hlt : p < priorityOf (st2.getD "off") <;>
          simp [resolveGo, hj, hg, hlt, ih]
    · simp [resolveGo, hj, ih]

/-- C10: a record that parses but has no `state` field is read as
`"off"` (`data.get("state", "off")`, priority 0), so it can never win a
comparison: the resolved winner with such a record present equals the
winner with it removed, for any position of the record in the listing. -/
theorem missing_state_never_changes_winner (fs1 fs2 : List SessionFile)
    (nm sfx : String) (ts : Option Int) :
    resolve_winning_state (some (fs1 ++ ⟨nm, sfx, .record none ts⟩ :: fs2)) =
    resolve_winning_state (some (fs1 ++ fs2)) := by
  rw [resolve_some_eq, resolve_some_eq]
  exact resolveGo_skip_missing_state ⟨nm, sfx, .record none ts⟩ ts rfl fs1 fs2 "off" 0

/-- C5: legacy mode (no session id) with state `success`: the controller
commands `success`, sleeps `SUCCESS_DURATION` seconds, commands `off`,
exits 0, and returns the session registry exactly as it found it — no
record is created, modified, deleted, or garbage-collected, whatever the
registry contains. -/
theorem legacy_success_leaves_registry_untouched (reg : Registry) (t0 t1 : Int) :
    main ["success"] true true reg t0 t1 =
      ⟨0, [.command "success", .sleep SUCCESS_DURATION, .command "off"], reg⟩ := rfl

lemma register_some_pos (fs : List SessionFile) (sid s : String) (t : Int)
    (h : fs.any (fun g => g.name == sid ++ ".json") = true) :
    register_session_state (some fs) sid s t =
      some (fs.map (fun g =>
        if g.name == sid ++ ".json" then sessionFileFor sid s t else g)) := by
  simp only [register_session_state]
  rw [if_pos h]

lemma register_some_neg (fs : List SessionFile) (sid s : String) (t : Int)
    (h : fs.any (fun g => g.name == sid ++ ".json") = false) :
    register_session_state (some fs) sid s t = some (fs ++ [sessionFileFor sid s t]) := by
  simp only [register_session_state]
  rw [if_neg (by simp [h])]

/-- After any registration there is a file named `{sid}.json`. -/
lemma register_any_name (fs : List SessionFile) (sid s : String) (t : Int)
    (h : fs.any (fun g => g.name == sid ++ ".json") = true) :
    (fs.map (fun g =>
      if g.name == sid ++ ".json" then sessionFileFor sid s t else g)).any
        (fun g => g.name == sid ++ ".json") = true := by
  rw [List.any_map]
  rw [List.any_eq_true] at h ⊢
  obtain ⟨g, hg, hpg⟩ := h
  exact ⟨g, hg, by simp [Function.comp, hpg, sessionFileFor]⟩

/-- Writing a session file twice leaves exactly the file of the second
write: the second `write_text` overwrites the first. -/
lemma register_register (reg : Registry) (sid s : String) (t1 t2 : Int) :
    register_session_state (register_session_state reg sid s t1) sid s t2 =
    register_session_state reg sid s t2 := by
  cases reg with
  | none =>
    show register_session_state (some [sessionFileFor sid s t1]) sid s t2 = _
    rw [register_some_pos _ sid s t2 (by simp [sessionFileFor])]
    simp [register_session_state, sessionFileFor]
  | some fs =>
    cases h : fs.any (fun g => g.name == sid ++ ".json") with
    | true =>
      rw [register_some_pos fs sid s t1 h,
          register_some_pos _ sid s t2 (register_any_name fs sid s t1 h),
          register_some_pos fs sid s t2 h, List.map_map]
      congr 1
      apply List.map_congr_left
      intro g _
      by_cases hpg : (g.name == sid ++ ".json") = true
      · simp [Function.comp, hpg, sessionFileFor]
      · simp [Function.comp, hpg]
    | false =>
      have hnone : ∀ g ∈ fs, ¬(g.name == sid ++ ".json") = true := by
        simpa [List.any_eq_false] using h
      have happ : ((fs ++ [sessionFileFor sid s t1]).any
          (fun g => g.name == sid ++ ".json")) = true := by
        simp [List.any_append, sessionFileFor]
      rw [register_some_neg fs sid s t1 h,
          register_some_pos _ sid s t2 happ,
          register_some_neg fs sid s t2 h, List.map_append]
      have hid : fs.map (fun g =>
          if g.name == sid ++ ".json" then sessionFileFor sid s t2 else g) = fs := by
        conv_rhs => rw [← List.map_id fs]
        apply List.map_congr_left
        intro g hg
        simp [hnone g hg]
      rw [hid]
      congr 2
      simp [sessionFileFor]

/-- What the resolver reads from a file: its suffix and, when readable,
the optional `state` field — never the timestamp. -/
def resolveKey (f : SessionFile) : String × Option (Option String) :=
  (f.suffix, match f.content with
             | .corrupt => none
             | .record st _ => some st)

lemma resolveGo_cons_json_record (f : SessionFile) (rest : List SessionFile)
    (b : String) (p : Nat) (hj : f.suffix = ".json")
    (st : Option String) (ts : Option Int) (hc : f.content = .record st ts) :
    resolveGo (f :: rest) b p =
      if p < priorityOf (st.getD "off") then
        resolveGo rest (st.getD "off") (priorityOf (st.getD "off"))
      else resolveGo rest b p := by
  simp [resolveGo, hj, hc]

lemma resolveGo_cons_skip (f : SessionFile) (rest : List SessionFile)
    (b : String) (p : Nat) (h : f.suffix ≠ ".json" ∨ f.content = .corrupt) :
    resolveGo (f :: rest) b p = resolveGo rest b p := by
  rcases h with h | h
  · simp [resolveGo, h]
  · by_cases hj : f.suffix = ".json" <;> simp [resolveGo, hj, h]

/-- The resolver loop only depends on the suffixes and state fields of
the listing, never on timestamps or file names. -/
lemma resolveGo_congr (fs fs' : List SessionFile)
    (h : fs.map resolveKey = fs'.map resolveKey) :
    ∀ b p, resolveGo fs b p = resolveGo fs' b p := by
  induction fs generalizing fs' with
  | nil =>
    cases fs' with
    | nil => intro b p; rfl
    | cons f' rest' => simp at h
  | cons f rest ih =>
    cases fs' with
    | nil => simp at h
    | cons f' rest' =>
      simp only [List.map_cons, List.cons.injEq] at h
      obtain ⟨h1, h2⟩ := h
      have hsfx : f.suffix = f'.suffix := congrArg Prod.fst h1
      have hkey := congrArg Prod.snd h1
      simp only [resolveKey] at hkey
      intro b p
      by_cases hj : f.suffix = ".json"
      · have hj' : f'.suffix = ".json" := hsfx ▸ hj
        cases hc : f.content with
        | corrupt =>
          cases hc' : f'.content with
          | corrupt =>
            rw [resolveGo_cons_skip f rest b p (Or.inr hc),
                resolveGo_cons_skip f' rest' b p (Or.inr hc')]
            exact ih rest' h2 b p
          | record st' ts' =>
            rw [hc, hc'] at hkey
            simp at hkey
        | record st ts =>
          cases hc' : f'.content with
          | corrupt =>
            rw [hc, hc'] at hkey
            simp at hkey
          | record st' ts' =>
            rw [hc, hc'] at hkey
            have hst : st = st' := by simpa using hkey
            subst hst
            rw [resolveGo_cons_json_record f rest b p hj st ts hc,
                resolveGo_cons_json_record f' rest' b p hj' st ts' hc']
            by_cases hlt : p < priorityOf (st.getD "off") <;>
              simp [hlt, ih rest' h2]
      · have hj' : f'.suffix ≠ ".json" := by rw [← hsfx]; exact hj
        rw [resolveGo_cons_skip f rest b p (Or.inl hj),
            resolveGo_cons_skip f' rest' b p (Or.inl hj')]
        exact ih rest' h2 b p

/-- Registering the same state at two different times yields listings
the resolver cannot distinguish. -/
lemma register_map_key (reg : Registry) (sid s : String) (t t' : Int) :
    ∃ fs fs', register_session_state reg sid s t = some fs ∧
      register_session_state reg sid s t' = some fs' ∧
      fs.map resolveKey = fs'.map resolveKey := by
  cases reg with
  | none =>
    exact ⟨[sessionFileFor sid s t], [sessionFileFor sid s t'], rfl, rfl, rfl⟩
  | some fs0 =>
    cases h : fs0.any (fun g => g.name == sid ++ ".json") with
    | true =>
      refine ⟨_, _, register_some_pos fs0 sid s t h, register_some_pos fs0 sid s t' h, ?_⟩
      rw [List.map_map, List.map_map]
      apply List.map_congr_left
      intro g _
      by_cases hpg : (g.name == sid ++ ".json") = true
      · simp [Function.comp, hpg, sessionFileFor, resolveKey]
      · simp [Function.comp, hpg]
    | false =>
      refine ⟨_, _, register_some_neg fs0 sid s t h, register_some_neg fs0 sid s t' h, ?_⟩
      simp [sessionFileFor, resolveKey]

/-- C8: registering the same `(session_id, state)` pair twice in
succession yields the same resolved winner as registering it once (at
any write time): the second write overwrites the first, and the resolver
never reads timestamps. -/
theorem register_idempotent_for_resolution (reg : Registry) (sid s : String)
    (t1 t2 t3 : Int) :
    resolve_winning_state
      (register_session_state (register_session_state reg sid s t1) sid s t2) =
    resolve_winning_state (register_session_state reg sid s t3) := by
  rw [register_register]
  obtain ⟨fs, fs', h2, h3, hk⟩ := register_map_key reg sid s t2 t3
  rw [h2, h3, resolve_some_eq, resolve_some_eq]
  exact resolveGo_congr fs fs' hk "off" 0

lemma mem_STATES_of_priority_some (s : String) (p : Nat)
    (h : STATE_PRIORITY s = some p) : s ∈ STATES_names := by
  unfold STATE_PRIORITY at h
  split at h <;> simp_all [STATES_names]

/-- The resolved winner is always a key of the `STATES` table: it is
`"off"` or a record state of strictly positive priority, and positive
priority requires presence in `STATE_PRIORITY`, whose keys are the
`STATES` keys. -/
lemma resolve_mem_STATES (reg : Registry) :
    resolve_winning_state reg ∈ STATES_names := by
  cases reg with
  | none => simp [resolve_winning_state, STATES_names]
  | some fs =>
    obtain ⟨-, -, h3⟩ := resolveGo_spec fs "off" 0 rfl
    rw [resolve_some_eq]
    rcases h3 with he | hlt
    · rw [he]; simp [STATES_names]
    · cases hsp : STATE_PRIORITY (resolveGo fs "off" 0) with
      | none =>
        exfalso
        have h0 : priorityOf (resolveGo fs "off" 0) = 0 := by simp [priorityOf, hsp]
        omega
      | some p => exact mem_STATES_of_priority_some _ p hsp

lemma foldr_max_const (s : String) :
    ∀ l : List String, l ≠ [] → (∀ x ∈ l, x = s) →
      l.foldr (fun x m => max (priorityOf x) m) 0 = priorityOf s := by
  intro l
  induction l with
  | nil => intro h _; exact absurd rfl h
  | cons x rest ih =>
    intro _ hall
    have hx : x = s := hall x (by simp)
    by_cases hr : rest = []
    · subst hr; subst hx; simp
    · have hrest := ih hr (fun y hy => hall y (by simp [hy]))
      rw [List.foldr_cons, hrest, hx]
      simp

/-- When every parsed record carries the same positive-priority state,
that state wins. -/
lemma resolve_of_all_records_eq (fs : List SessionFile) (s : String)
    (hpos : 0 < priorityOf s) (hne : recordStates fs ≠ [])
    (hall : ∀ x ∈ recordStates fs, x = s) :
    resolve_winning_state (some fs) = s := by
  obtain ⟨h1, h2, -⟩ := resolveGo_spec fs "off" 0 rfl
  have hmax : maxRecordPriority fs = priorityOf s :=
    foldr_max_const s (recordStates fs) hne hall
  rw [resolve_some_eq]
  rcases List.mem_cons.mp h1 with hoff | hmem
  · exfalso
    rw [hoff, priorityOf_off, hmax] at h2
    omega
  · exact hall _ hmem

lemma getD_mem_recordStates (fs : List SessionFile) (f : SessionFile)
    (hf : f ∈ fs) (hj : f.suffix = ".json") (st : Option String) (ts : Option Int)
    (hc : f.content = .record st ts) :
    st.getD "off" ∈ recordStates fs := by
  unfold recordStates
  exact List.mem_filterMap.mpr ⟨f, hf, by simp [hj, hc]⟩

lemma recordStates_all (fs : List SessionFile) (s : String)
    (h : ∀ f ∈ fs, f.suffix = ".json" →
      ∀ st ts, f.content = .record st ts → st.getD "off" = s) :
    ∀ x ∈ recordStates fs, x = s := by
  intro x hx
  unfold recordStates at hx
  obtain ⟨f, hf, hfx⟩ := List.mem_filterMap.mp hx
  by_cases hj : f.suffix = ".json"
  · cases hc : f.content with
    | corrupt => simp [hj, hc] at hfx
    | record st ts =>
      simp only [hj, hc] at hfx
      simp at hfx
      rw [← hfx]
      exact h f hf hj st ts hc
  · simp [hj] at hfx

lemma recordStates_eq_nil_of_no_json (fs : List SessionFile)
    (h : ∀ f ∈ fs, f.suffix ≠ ".json") : recordStates fs = [] := by
  unfold recordStates
  rw [List.filterMap_eq_nil_iff]
  intro f hf
  simp [h f hf]

lemma recordStates_append (l1 l2 : List SessionFile) :
    recordStates (l1 ++ l2) = recordStates l1 ++ recordStates l2 := by
  simp [recordStates, List.filterMap_append]

/-- Garbage collection only removes files, so a directory whose `.json`
files all belong to `sid` keeps that shape. -/
lemma cleanup_preserves_only (reg : Registry) (sid : String) (now : Int)
    (h : ∀ fs0, reg = some fs0 → ∀ f ∈ fs0, f.suffix = ".json" → f.name = sid ++ ".json") :
    ∀ fs0, cleanup_stale_sessions reg now = some fs0 →
      ∀ f ∈ fs0, f.suffix = ".json" → f.name = sid ++ ".json" := by
  cases reg with
  | none => intro fs0 hf; simp [cleanup_stale_sessions] at hf
  | some fs =>
    intro fs0 hf f hmem hj
    rw [cleanup_some_eq] at hf
    have he : fs0 = fs.filter (fun f => !(f.suffix == ".json" && staleOrCorrupt now f)) :=
      (Option.some_injective _ hf).symm
    subst he
    exact h fs rfl f (List.mem_filter.mp hmem).1 hj

/-- Registering `(sid, s)` into a directory whose `.json` files all
belong to `sid` produces a directory with at least one parsed record,
all of whose parsed records read state `s`, and whose `.json` files
still all belong to `sid`. -/
lemma register_only (reg : Registry) (sid s : String) (t : Int)
    (h : ∀ fs0, reg = some fs0 → ∀ f ∈ fs0, f.suffix = ".json" → f.name = sid ++ ".json") :
    ∃ fs1, register_session_state reg sid s t = some fs1 ∧
      recordStates fs1 ≠ [] ∧
      (∀ x ∈ recordStates fs1, x = s) ∧
      (∀ f ∈ fs1, f.suffix = ".json" → f.name = sid ++ ".json") := by
  cases reg with
  | none =>
    refine ⟨[sessionFileFor sid s t], rfl, ?_, ?_, ?_⟩
    · simp [recordStates, sessionFileFor]
    · simp [recordStates, sessionFileFor]
    · intro f hf
      simp at hf
      subst hf
      intro _
      rfl
  | some fs0 =>
    have h0 := h fs0 rfl
    cases hany : fs0.any (fun g => g.name == sid ++ ".json") with
    | true =>
      refine ⟨_, register_some_pos fs0 sid s t hany, ?_, ?_, ?_⟩
      · rw [List.any_eq_true] at hany
        obtain ⟨g0, hg0, hpg0⟩ := hany
        have hmem : sessionFileFor sid s t ∈ fs0.map (fun g =>
            if g.name == sid ++ ".json" then sessionFileFor sid s t else g) :=
          List.mem_map.mpr ⟨g0, hg0, by simp [hpg0]⟩
        have hsin := getD_mem_recordStates _ (sessionFileFor sid s t) hmem rfl
          (some s) (some t) rfl
        simp only [Option.getD_some] at hsin
        intro hnil
        rw [hnil] at hsin
        exact List.not_mem_nil s hsin
      · apply recordStates_all
        intro f hf hj st ts hc
        obtain ⟨g, hg, hfg⟩ := List.mem_map.mp hf
        by_cases hpg : (g.name == sid ++ ".json") = true
        · rw [if_pos hpg] at hfg
          rw [← hfg] at hc
          have : FileContent.record (some s) (some t) = .record st ts := hc
          injection this with h1 h2
          rw [← h1]
          rfl
        · rw [if_neg hpg] at hfg
          rw [← hfg] at hj
          exact absurd (by simp [h0 g hg hj]) hpg
      · intro f hf hj
        obtain ⟨g, hg, hfg⟩ := List.mem_map.mp hf
        by_cases hpg : (g.name == sid ++ ".json") = true
        · rw [if_pos hpg] at hfg
          rw [← hfg]
          rfl
        · rw [if_neg hpg] at hfg
          rw [← hfg] at hj ⊢
          exact h0 g hg hj
    | false =>
      have hnojson : ∀ g ∈ fs0, g.suffix ≠ ".json" := by
        intro g hg hj
        rw [List.any_eq_false] at hany
        exact hany g hg (by simp [h0 g hg hj])
      have hrs : recordStates (fs0 ++ [sessionFileFor sid s t]) = [s] := by
        rw [recordStates_append, recordStates_eq_nil_of_no_json fs0 hnojson]
        simp [recordStates, sessionFileFor]
      refine ⟨_, register_some_neg fs0 sid s t hany, ?_, ?_, ?_⟩
      · rw [hrs]; simp
      · rw [hrs]; simp
      · intro f hf hj
        rcases List.mem_append.mp hf with hf0 | hf1
        · exact absurd hj (hnojson f hf0)
        · simp at hf1
          subst hf1
          rfl

/-- Registering a positive-priority state into a directory owned by a
single session makes that state the resolved winner. -/
lemma register_resolve_of_only (reg : Registry) (sid s : String) (t : Int)
    (hpos : 0 < priorityOf s)
    (h : ∀ fs0, reg = some fs0 → ∀ f ∈ fs0, f.suffix = ".json" → f.name = sid ++ ".json") :
    ∃ fs1, register_session_state reg sid s t = some fs1 ∧
      resolve_winning_state (some fs1) = s ∧
      (∀ f ∈ fs1, f.suffix = ".json" → f.name = sid ++ ".json") := by
  obtain ⟨fs1, hr, hne, hall, hnames⟩ := register_only reg sid s t h
  exact ⟨fs1, hr, resolve_of_all_records_eq fs1 s hpos hne hall, hnames⟩

lemma mem_success : ("success" : String) ∈ STATES_names := by simp [STATES_names]

lemma mem_off : ("off" : String) ∈ STATES_names := by simp [STATES_names]

/-- Session-aware `off`: unregister, resolve, command, exit 0. -/
lemma main_session_off_eq (sid : String) (reg : Registry) (t0 t1 : Int) :
    main ["off", sid] true true reg t0 t1 =
      ⟨0,
       [.command (resolve_winning_state (unregister_session (cleanup_stale_sessions reg t0) sid))],
       unregister_session (cleanup_stale_sessions reg t0) sid⟩ := by
  simp [main, set_light_state, mem_off, resolve_mem_STATES]

/-- Session-aware `success`: register `success` at `t0`, resolve,
command; sleep; register `session` at `t1`, resolve, command; exit 0. -/
lemma main_session_success_eq (sid : String) (reg : Registry) (t0 t1 : Int) :
    main ["success", sid] true true reg t0 t1 =
      ⟨0,
       [.command (resolve_winning_state
          (register_session_state (cleanup_stale_sessions reg t0) sid "success" t0)),
        .sleep SUCCESS_DURATION,
        .command (resolve_winning_state
          (register_session_state
            (register_session_state (cleanup_stale_sessions reg t0) sid "success" t0)
            sid "session" t1))],
       register_session_state
         (register_session_state (cleanup_stale_sessions reg t0) sid "success" t0)
         sid "session" t1⟩ := by
  simp [main, set_light_state, mem_success, resolve_mem_STATES]

/-- Session-aware mode for any state other than `off` and `success`:
register, resolve, command, exit 0. -/
lemma main_session_normal_eq (st sid : String) (reg : Registry) (t0 t1 : Int)
    (hmem : st ∈ STATES_names) (hoff : st ≠ "off") (hsucc : st ≠ "success") :
    main [st, sid] true true reg t0 t1 =
      ⟨0,
       [.command (resolve_winning_state
          (register_session_state (cleanup_stale_sessions reg t0) sid st t0))],
       register_session_state (cleanup_stale_sessions reg t0) sid st t0⟩ := by
  simp [main, set_light_state, hmem, hoff, hsucc, resolve_mem_STATES]

/-- C2: for EVERY session-aware `success` invocation — over an arbitrary
registry, so including the case where other sessions' records are
present and re-resolution may pick a different winner — the controller
registers `(sid, "success")` at `t0` into the garbage-collected
registry, resolves and commands that winner, sleeps `SUCCESS_DURATION`,
re-registers the SAME `sid` as `"session"` at `t1`, resolves the new
registry and commands its winner, exiting 0.  In particular, when no
other session is registered (every `.json` file of the registry belongs
to `sid`), the two commanded winners are `success` then `session`, and
the final resolved state is `session`, not `off`. -/
theorem success_demotes_to_session (sid : String) (reg : Registry) (t0 t1 : Int) :
    (main ["success", sid] true true reg t0 t1 =
      ⟨0,
       [.command (resolve_winning_state
          (register_session_state (cleanup_stale_sessions reg t0) sid "success" t0)),
        .sleep SUCCESS_DURATION,
        .command (resolve_winning_state
          (register_session_state
            (register_session_state (cleanup_stale_sessions reg t0) sid "success" t0)
            sid "session" t1))],
       register_session_state
         (register_session_state (cleanup_stale_sessions reg t0) sid "success" t0)
         sid "session" t1⟩) ∧
    ((∀ fs0, reg = some fs0 → ∀ f ∈ fs0, f.suffix = ".json" → f.name = sid ++ ".json") →
      (main ["success", sid] true true reg t0 t1).events =
        [.command "success", .sleep SUCCESS_DURATION, .command "session"] ∧
      resolve_winning_state (main ["success", sid] true true reg t0 t1).registry = "session") := by
  refine ⟨main_session_success_eq sid reg t0 t1, ?_⟩
  intro h
  have h0 := cleanup_preserves_only reg sid t0 h
  obtain ⟨fs1, hr1, hw1, honly1⟩ :=
    register_resolve_of_only (cleanup_stale_sessions reg t0) sid "success" t0
      (by decide) h0
  obtain ⟨fs2, hr2, hw2, -⟩ :=
    register_resolve_of_only (some fs1) sid "session" t1 (by decide)
      (by
        intro fs0 hfs0
        injection hfs0 with he
        subst he
        exact honly1)
  rw [main_session_success_eq, hr1, hr2]
  exact ⟨by rw [hw1, hw2], hw2⟩

/-- Witness for C2 with session id `"abc"` and an absent sessions
directory: the trace is `success`, sleep, `session`, and the final
winner is `session`. -/
theorem success_demotes_to_session_witness :
    (main ["success", "abc"] true true none 0 5).events =
      [.command "success", .sleep SUCCESS_DURATION, .command "session"] ∧
    resolve_winning_state (main ["success", "abc"] true true none 0 5).registry = "session" :=
  (success_demotes_to_session "abc" none 0 5).2 (by intro fs0 hfs0; simp at hfs0)

/-- C3: every session-aware invocation (valid state, config present,
network up) ends with a command equal to the resolution of the registry
as just mutated; transitions other than `success` issue exactly that one
command, and the `success` invocation performs its two transitions —
register `success`, then re-register `session` — each ending with
exactly one command that reflects the registry at its own resolution
point. -/
theorem session_aware_ends_with_resolved_command (st sid : String)
    (reg : Registry) (t0 t1 : Int) (hmem : st ∈ STATES_names) :
    (main [st, sid] true true reg t0 t1).events.getLast? =
      some (.command (resolve_winning_state (main [st, sid] true true reg t0 t1).registry)) ∧
    (st ≠ "success" → (main [st, sid] true true reg t0 t1).events =
      [.command (resolve_winning_state (main [st, sid] true true reg t0 t1).registry)]) ∧
    (st = "success" → (main [st, sid] true true reg t0 t1).events =
      [.command (resolve_winning_state
         (register_session_state (cleanup_stale_sessions reg t0) sid "success" t0)),
       .sleep SUCCESS_DURATION,
       .command (resolve_winning_state (main [st, sid] true true reg t0 t1).registry)]) := by
  by_cases hsucc : st = "success"
  · subst hsucc
    rw [main_session_success_eq]
    exact ⟨rfl, fun hne => absurd rfl hne, fun _ => rfl⟩
  · by_cases hoff : st = "off"
    · subst hoff
      rw [main_session_off_eq]
      exact ⟨rfl, fun _ => rfl, fun he => absurd he (by simp)⟩
    · rw [main_session_normal_eq st sid reg t0 t1 hmem hoff hsucc]
      exact ⟨rfl, fun _ => rfl, fun he => absurd he hsucc⟩

/-- Witness for C3: the `thinking` transition for session `"w1"` over an
absent directory issues exactly one command, which reflects the
resolution of the mutated registry. -/
theorem session_aware_ends_with_resolved_command_witness :
    (main ["thinking", "w1"] true true none 0 5).events =
      [.command (resolve_winning_state (main ["thinking", "w1"] true true none 0 5).registry)] :=
  (session_aware_ends_with_resolved_command "thinking" "w1" none 0 5
    (by simp [STATES_names])).2.1 (by simp)

/-- C7: the CLI exits 1 exactly when the state argument is missing
(usage message), the state is not in the catalog, the configuration is
absent, or the network call to the bridge fails; every other invocation
exits 0.  Registry reads and writes are modelled as always succeeding,
and `netOk` models the bridge being reachable for the whole
invocation. -/
theorem exit_code_one_exactly_on_failure :
    (∀ (configPresent netOk : Bool) (reg : Registry) (t0 t1 : Int),
      (main [] configPresent netOk reg t0 t1).exitCode = 1) ∧
    (∀ (st : String) (rest : List String) (configPresent netOk : Bool)
        (reg : Registry) (t0 t1 : Int),
      (main (st :: rest) configPresent netOk reg t0 t1).exitCode =
        if st ∈ STATES_names ∧ configPresent = true ∧ netOk = true then 0 else 1) := by
  refine ⟨fun _ _ _ _ _ => rfl, ?_⟩
  intro st rest configPresent netOk reg t0 t1
  by_cases hmem : st ∈ STATES_names
  · cases configPresent with
    | false => simp [main, hmem]
    | true =>
      cases netOk with
      | false =>
        have hsl : ∀ s, set_light_state false s = none := by
          intro s
          simp [set_light_state]
        cases rest with
        | nil => simp [main, hmem, hsl]
        | cons sid rest' =>
          by_cases hoff : st = "off"
          · subst hoff
            simp [main, hsl, mem_off]
          · by_cases hsucc : st = "success"
            · subst hsucc
              simp [main, hsl, mem_success]
            · simp [main, hmem, hoff, hsucc, hsl]
      | true =>
        cases rest with
        | nil =>
          by_cases hsucc : st = "success"
          · subst hsucc
            simp [main, mem_success, mem_off, set_light_state]
          · simp [main, hmem, hsucc, set_light_state]
        | cons sid rest' =>
          by_cases hoff : st = "off"
          · subst hoff
            simp [main, mem_off, set_light_state, resolve_mem_STATES]
          · by_cases hsucc : st = "success"
            · subst hsucc
              simp [main, mem_success, set_light_state, resolve_mem_STATES]
            · simp [main, hmem, hoff, hsucc, set_light_state, resolve_mem_STATES]
  · simp [main, hmem]

end HueControl
